import Mathlib

/-!
Shallow embedding of `src/ampel/util/apitools.py` (Ampel-apitools).

The Python module consolidates ZTF archive alerts per object identifier
(`Stream.merge_alerts`), extracts per-object summary features
(`Stream.get_info_from_alerts`), builds archive queries
(`create_stream_from_objectIds`, `create_stream_from_epoch`,
`generic_stream`) and consumes the alert stream with a retry policy
(`access_stream`).  Python dictionaries holding detections are modelled as a
record of the fields the code touches; numeric fields are modelled as `ℚ`.
-/

/-- One observational measurement (a `candidate` / `prv_candidates` entry).
`magpsf = none` models absence of the `magpsf` key (a non-detection);
likewise for `ra`, `dec`, `distnr`.  Value equality of the Python dicts is
the derived `DecidableEq`. -/
structure Detection where
  jd : ℚ
  fid : ℕ
  jdstarthist : ℚ
  magpsf : Option ℚ
  ra : Option ℚ
  dec : Option ℚ
  distnr : Option ℚ
deriving DecidableEq, Repr, Inhabited

/-- One archive alert: object identifier, current detection, previous
detections. -/
structure Alert where
  objectId : String
  candidate : Detection
  prv_candidates : List Detection
deriving DecidableEq, Repr, Inhabited

/-- Python `min` over a nonempty list (`0` is never reached by callers,
which guard for nonemptiness as the source does). -/
def minList : List ℚ → ℚ
  | [] => 0
  | [x] => x
  | x :: y :: t => min x (minList (y :: t))

/-- Python `max` over a nonempty list. -/
def maxList : List ℚ → ℚ
  | [] => 0
  | [x] => x
  | x :: y :: t => max x (maxList (y :: t))

/-- `l.index v`: index of the first occurrence of `v`. -/
def idxOfQ (v : ℚ) (l : List ℚ) : ℕ := l.findIdx (fun y => decide (y = v))

/-- Insert into an ascending list (used to model Python `sorted`). -/
def insertAsc (x : ℚ) : List ℚ → List ℚ
  | [] => [x]
  | y :: ys => if x ≤ y then x :: y :: ys else y :: insertAsc x ys

/-- Python `sorted` (ascending); insertion sort, which agrees with any
sort on the list of values. -/
def sortAsc : List ℚ → List ℚ
  | [] => []
  | x :: xs => insertAsc x (sortAsc xs)

/-- One step of the inner dedup loop of `merge_alerts`:
`if prv not in latest["prv_candidates"]: latest["prv_candidates"] = [prv] + ...`. -/
def dedupStep (acc : List Detection) (p : Detection) : List Detection :=
  if p ∈ acc then acc else p :: acc

/-- The body of `for prv in x["prv_candidates"] + [x["candidate"]]` in
`merge_alerts`: fold the detections of `x` into the latest alert's
`prv_candidates`. -/
def mergeIntoPrv (latestPrv : List Detection) (x : Alert) : List Detection :=
  (x.prv_candidates ++ [x.candidate]).foldl dedupStep latestPrv

/-- The `else` branch of `merge_alerts` for a group of (≥ 2) alerts sharing
one `objectId`.  Mirrors the source:
`order = [jds.index(x) for x in sorted(jds)[::-1]]`,
`latest = alerts[jds.index(max(jds))]`, the in-place `jdstarthist` update,
then the loop over `order[1:]`.  When an index of `order[1:]` is the latest
alert's own index, the Python loop reads the latest alert itself (aliasing),
which the fold reproduces by substituting the accumulated
`prv_candidates`. -/
def mergeMany (alerts : List Alert) : Alert :=
  let jds := alerts.map (fun x => x.candidate.jd)
  let order := (sortAsc jds).reverse.map (fun v => idxOfQ v jds)
  let latestIdx := idxOfQ (maxList jds) jds
  let base := alerts.getD latestIdx default
  let minStart := minList (alerts.map (fun x => x.candidate.jdstarthist))
  let latest0 : Alert :=
    { base with candidate := { base.candidate with jdstarthist := minStart } }
  let finalPrv := (order.drop 1).foldl
    (fun prvList i =>
      let x := if i = latestIdx then { latest0 with prv_candidates := prvList }
               else alerts.getD i default
      mergeIntoPrv prvList x)
    latest0.prv_candidates
  { latest0 with prv_candidates := finalPrv }

/-- Per-object branch of `merge_alerts`: a single alert passes through
unchanged, two or more are merged by `mergeMany`; the empty group does not
occur (every key comes from some alert). -/
def mergeGroup : List Alert → Option Alert
  | [] => none
  | [a] => some a
  | a :: b :: rest => some (mergeMany (a :: b :: rest))

/-- `Stream.merge_alerts`: one merged alert per distinct `objectId`
(`keys = list(set(...))`; the set's iteration order is arbitrary in Python
and is modelled by `List.dedup`). -/
def merge_alerts (alert_list : List Alert) : List Alert :=
  ((alert_list.map (fun x => x.objectId)).dedup).filterMap
    (fun k => mergeGroup (alert_list.filter (fun x => decide (x.objectId = k))))

/-- `"magpsf" in a.keys()`: the entry is a true detection. -/
def hasMag (a : Detection) : Bool := a.magpsf.isSome

/-- Python `d[key]` / `key in d.keys()` for the scalar fields the code
reads, as an optional lookup (`none` models an absent key). -/
def getKey (d : Detection) : String → Option ℚ
  | "ra" => d.ra
  | "dec" => d.dec
  | "distnr" => d.distnr
  | "magpsf" => d.magpsf
  | "jd" => some d.jd
  | "jdstarthist" => some d.jdstarthist
  | "fid" => some (d.fid : ℚ)
  | _ => none

/-- `np.mean` over the collected values (exact arithmetic model). -/
def meanQ (l : List ℚ) : ℚ := l.sum / l.length

/-- Python `dict.update({k: v})`: replace any existing binding of `k`,
otherwise add it. -/
def updateKey (m : List (String × α)) (k : String) (v : α) : List (String × α) :=
  m.filter (fun p => decide (p.1 ≠ k)) ++ [(k, v)]

/-- Python `dict[k]` as an optional lookup. -/
def lookupKey : List (String × α) → String → Option α
  | [], _ => none
  | (k, v) :: rest, key => if k = key then some v else lookupKey rest key

/-- `filternames = {1: "g", 2: "r", 3: "i"}`. -/
def filtername : ℕ → String
  | 1 => "g"
  | 2 => "r"
  | 3 => "i"
  | _ => ""

/-- The key `f"peak_mjd_{filternames[f]}"`. -/
def peakKey (f : ℕ) : String := "peak_mjd_" ++ filtername f

/-- The detection history `get_info_from_alerts` iterates over after
`prv.append(alert_content)`, filtered to true detections. -/
def detectionsOf (t : Alert) : List Detection :=
  (t.prv_candidates ++ [t.candidate]).filter hasMag

/-- The true detections of `t` in filter band `f` (`d["fid"] == f`). -/
def bandOf (t : Alert) (f : ℕ) : List Detection :=
  (detectionsOf t).filter (fun d => decide (d.fid = f))

/-- The magnitude the band loop reads from a true detection. -/
def magOf (d : Detection) : ℚ := d.magpsf.getD 0

/-- `np.argmin`: index of the first occurrence of the minimum. -/
def argminQ (l : List ℚ) : ℕ := l.findIdx (fun x => decide (x = minList l))

/-- The `peak_mjd` value of band `f` for one transient: `jd[i] - 2400000.5`
at `i = np.argmin(magpsf)`, or `None` for an empty band. -/
def peakValue (t : Alert) (f : ℕ) : Option ℚ :=
  let mags := (bandOf t f).map magOf
  let jds := (bandOf t f).map (fun d => d.jd)
  if mags.isEmpty then none
  else some (jds.getD (argminQ mags) 0 - 2400000.5)

/-- The mean value of `key` over the true detections having that key, or
`None` if none do. -/
def meanValue (t : Alert) (k : String) : Option ℚ :=
  let lfm := (detectionsOf t).filterMap (fun d => getKey d k)
  if lfm.isEmpty then none else some (meanQ lfm)

/-- `_returndict` for one transient: the mean of each requested key, then
the three `peak_mjd_<band>` entries, accumulated by `dict.update`. -/
def extractRecord (keyList : List String) (t : Alert) : List (String × Option ℚ) :=
  [1, 2, 3].foldl (fun acc f => updateKey acc (peakKey f) (peakValue t f))
    (keyList.foldl (fun acc k => updateKey acc k (meanValue t k)) [])

/-- The in-place mutation `prv.append(alert_content)` performed on every
transient of the merged list. -/
def touchAlert (t : Alert) : Alert :=
  { t with prv_candidates := t.prv_candidates ++ [t.candidate] }

/-- Insertion into a list ascending under `le`. -/
def insertBy (le : α → α → Bool) (x : α) : List α → List α
  | [] => [x]
  | y :: ys => if le x y then x :: y :: ys else y :: insertBy le x ys

/-- Sort under `le` (models `DataFrame.sort_index`). -/
def sortBy (le : α → α → Bool) : List α → List α
  | [] => []
  | x :: xs => insertBy le x (sortBy le xs)

/-- `Stream.get_info_from_alerts`: the first component is the resulting
table (rows keyed by `objectId`, built by `data.update`, sorted ascending
by `objectId`); the second component is the merged list as the call leaves
it in memory (each transient's `prv_candidates` extended in place by its
own `candidate`). -/
def get_info_from_alerts (merged_list : List Alert) (key_list : List String) :
    List (String × List (String × Option ℚ)) × List Alert :=
  (sortBy (fun a b => decide (a.1 ≤ b.1))
    (merged_list.foldl
      (fun acc t => updateKey acc t.objectId (extractRecord key_list t)) []),
   merged_list.map touchAlert)

/-- The JSON query body posted to the archive endpoint. -/
structure ArchiveQuery where
  objectId : Option (List String)
  jd : Option (ℚ × ℚ)
  candidate : List (String × ℚ)
deriving DecidableEq, Repr

/-- `{"Authorization": "bearer " + auth_token}` — built from the
module-level `auth_token` read from the environment at import time
(modelled as the `envToken` parameter). -/
def authHeader (envToken : String) : String := "bearer " ++ envToken

/-- `Stream.create_stream_from_objectIds`: the query it constructs and the
Authorization header `generic_stream` submits it with.  The `token`
parameter exists in the source signature but is never read. -/
def create_stream_from_objectIds (envToken : String) (token : String)
    (objectIds : List String) (candidate_dict : List (String × ℚ)) :
    ArchiveQuery × String :=
  ({ objectId := some objectIds, jd := none, candidate := candidate_dict },
   authHeader envToken)

/-- `Stream.create_stream_from_epoch`: the `jd` range comes from
`Time(date).jd` (the astropy conversion, modelled as the opaque `timeJd`);
the `token` parameter is never read. -/
def create_stream_from_epoch (envToken : String) (token : String)
    (timeJd : String → ℚ) (date_start : String) (date_end : String)
    (candidate_dict : List (String × ℚ)) : ArchiveQuery × String :=
  ({ objectId := none,
     jd := some (timeJd date_start, timeJd date_end),
     candidate := candidate_dict },
   authHeader envToken)

/-- Outcome of one `generic_stream` call. -/
inductive StreamOutcome
  | token (t : String)
  | queryRejected (msg : String)
  | cacheWriteError (e : String)
deriving DecidableEq, Repr

/-- `Stream.generic_stream` control flow: a non-ok response raises
`ValueError(detail[0].msg)`; otherwise the resume token is extracted and
then written to the cache file with `open`/`json.dump`, which has no
exception handler, so a failing write propagates out of the call
(`writeResult` models the outcome of that write). -/
def generic_stream (respOk : Bool) (detailMsg : String) (resume_token : String)
    (writeResult : Except String Unit) : StreamOutcome :=
  if respOk = false then .queryRejected detailMsg
  else
    match writeResult with
    | .error e => .cacheWriteError e
    | .ok _ => .token resume_token

/-- The HTTP failure `access_stream` may see while consuming the stream. -/
structure HttpErr where
  status : ℕ
deriving DecidableEq, Repr

/-- `giveup=lambda e: e.response.status_code not in {423}`. -/
def giveupStatus (e : HttpErr) : Bool := decide (e.status ∉ [423])

/-- Modelled from the spec: the retry combinator around `access_stream` is
the third-party `backoff.on_exception(backoff.expo, ..., giveup, max_time=3600)`
decorator, whose implementation is not under `src/`; the spec describes it
as "retry with exponential backoff starting from a short base delay,
doubling each attempt, capped at a total elapsed retry budget of one hour;
any other failure condition propagates immediately without retry".
`f n` is the outcome of attempt `n`; `remaining` is the seconds left of the
3600 s budget; the wait after a 423 failure is `2 ^ attempt`, capped at the
remaining budget; once the budget is exhausted the last exception is
raised.  The second component counts the attempts made. -/
def backoffExpoRetry (f : ℕ → Except HttpErr (List Alert)) (attempt : ℕ)
    (remaining : ℕ) : Except HttpErr (List Alert) × ℕ :=
  match f attempt with
  | .ok v => (.ok v, attempt + 1)
  | .error e =>
    if giveupStatus e then (.error e, attempt + 1)
    else if remaining = 0 then (.error e, attempt + 1)
    else backoffExpoRetry f (attempt + 1) (remaining - min (2 ^ attempt) remaining)
termination_by remaining
decreasing_by
  have h2 : 1 ≤ 2 ^ attempt := Nat.one_le_two_pow
  omega

/-- `Stream.access_stream` under the decorator: run the attempts with the
full one-hour budget. -/
def access_stream (f : ℕ → Except HttpErr (List Alert)) :
    Except HttpErr (List Alert) × ℕ :=
  backoffExpoRetry f 0 3600

/-- The first element of the list attaining the minimum of `f`, written
after the spec's words: "minimum magnitude" with "ties broken by first
occurrence in iteration order". -/
def firstMinBy (f : α → ℚ) : List α → Option α
  | [] => none
  | [x] => some x
  | x :: y :: t =>
    match firstMinBy f (y :: t) with
    | none => some x
    | some z => if f x ≤ f z then some x else some z

/-- The detection set of an alert: its current candidate together with its
`prv_candidates`, as a set of detection values. -/
def detSet (a : Alert) : Finset Detection :=
  (a.candidate :: a.prv_candidates).toFinset

/-- Merging an alert's own detection history into itself: the inner loop of
`merge_alerts` applied with the alert as both source and target. -/
def selfMerge (a : Alert) : Alert :=
  { a with prv_candidates := mergeIntoPrv a.prv_candidates a }

/-!
Concrete inputs used by counterexamples and witnesses.
-/

def dC1 : Detection := ⟨2, 1, 5, some 18, some 10, some 20, none⟩

def cC1 : Detection := ⟨1, 1, 10, some 19, some 11, some 21, none⟩

def alertC1A : Alert := ⟨"ZTF1", cC1, [dC1]⟩

def alertC1B : Alert := ⟨"ZTF1", dC1, []⟩

def mergedC1 : Alert := ⟨"ZTF1", dC1, [cC1, dC1]⟩

def aC2 : Detection := ⟨5, 1, 1, some 17, some 1, some 1, none⟩

def bC2 : Detection := ⟨5, 2, 1, some 16, some 2, some 2, none⟩

def pC2 : Detection := ⟨3, 1, 1, some 18, some 3, some 3, none⟩

def alertC2A : Alert := ⟨"ZTF2", aC2, []⟩

def alertC2B : Alert := ⟨"ZTF2", bC2, [pC2]⟩

def mergedC2 : Alert := ⟨"ZTF2", aC2, [aC2]⟩

def upperLimitC4 : Detection := ⟨7, 2, 1, none, some 4, some 5, none⟩

def alertC4 : Alert := ⟨"ZTF4", upperLimitC4, []⟩

def detC3a : Detection := ⟨2459001, 1, 1, some (91/5), some 10, some 20, none⟩

def detC3b : Detection := ⟨2459002, 1, 1, some (179/10), some 10, some 20, none⟩

def detC3c : Detection := ⟨2459003, 1, 1, some 19, some 10, some 20, none⟩

def alertC3 : Alert := ⟨"ZTF5", detC3c, [detC3a, detC3b]⟩

def detC9 : Detection := ⟨2459005, 2, 1, some 18, some 10, some 20, some 3⟩

def alertC9 : Alert := ⟨"ZTF9", detC9, []⟩

/-- Claim C10: the `token` parameter of `create_stream_from_objectIds` and
`create_stream_from_epoch` has no effect: two calls differing only in the
token argument construct the same query, and the Authorization header is
always `"bearer " ++` the module-level environment credential. -/
theorem token_parameter_has_no_effect :
    (∀ env t₁ t₂ ids cd,
      create_stream_from_objectIds env t₁ ids cd =
        create_stream_from_objectIds env t₂ ids cd) ∧
    (∀ env t₁ t₂ tj ds de cd,
      create_stream_from_epoch env t₁ tj ds de cd =
        create_stream_from_epoch env t₂ tj ds de cd) ∧
    (∀ env t ids cd, (create_stream_from_objectIds env t ids cd).2 = "bearer " ++ env) ∧
    (∀ env t tj ds de cd, (create_stream_from_epoch env t tj ds de cd).2 = "bearer " ++ env) :=
  ⟨fun _ _ _ _ _ => rfl, fun _ _ _ _ _ _ _ => rfl,
   fun _ _ _ _ => rfl, fun _ _ _ _ _ _ => rfl⟩

/-- Claim C8, counterexample: with a successful query submission but a
failing cache write, `generic_stream` does not return the resume token, so
the claim that it "still completes and returns the resume token" is false
on the code (the `open`/`json.dump` block has no exception handler). -/
theorem generic_stream_cache_failure_not_token :
    generic_stream true "" "tok123" (Except.error "disk full") ≠
      StreamOutcome.token "tok123" := by decide

/-- Claim C8, amended: a cache-write failure after a successful query
submission propagates out of `generic_stream` as an error; the pipeline
call aborts and the resume token is not returned to the caller. -/
theorem generic_stream_cache_failure_propagates (d tok e : String) :
    generic_stream true d tok (Except.error e) = StreamOutcome.cacheWriteError e := rfl

/-- Claim C1, code divergence: two alerts for one object with distinct
timestamps, where the earlier alert's `prv_candidates` contains a detection
equal to the later alert's candidate.  The merged alert's detection
multiset (candidate plus `prv_candidates`) contains that detection value
twice: the dedup check `prv not in latest["prv_candidates"]` never compares
against the latest candidate itself, so the claimed
"each detection value occurring exactly once" fails. -/
theorem merge_alerts_duplicates_latest_candidate :
    merge_alerts [alertC1A, alertC1B] = [mergedC1] ∧
    (mergedC1.candidate :: mergedC1.prv_candidates).count dC1 = 2 := by decide

/-- Claim C2, code divergence: two alerts for one object with equal
candidate timestamps.  `order = [jds.index(v) for v in sorted(jds)[::-1]]`
maps both tied values to the first index, so the loop over `order[1:]`
processes the already-selected latest alert itself (duplicating its own
candidate into its history) and never processes the second alert: both of
its detections are absent from the merged output. -/
theorem merge_alerts_drops_tied_alert :
    merge_alerts [alertC2A, alertC2B] = [mergedC2] ∧
    bC2 ∉ mergedC2.candidate :: mergedC2.prv_candidates ∧
    pC2 ∉ mergedC2.candidate :: mergedC2.prv_candidates ∧
    mergedC2.candidate ∈ mergedC2.prv_candidates := by decide

theorem minList_singleton (x : ℚ) : minList [x] = x := rfl

theorem minList_cons (x : ℚ) (l : List ℚ) (h : l ≠ []) :
    minList (x :: l) = min x (minList l) := by
  cases l with
  | nil => exact absurd rfl h
  | cons y t => rfl

theorem minList_le (l : List ℚ) : ∀ x ∈ l, minList l ≤ x := by
  induction l with
  | nil => intro x hx; cases hx
  | cons x xs ih =>
    intro y hy
    cases xs with
    | nil =>
      have hyx : y = x := by simpa using hy
      subst hyx
      exact le_refl _
    | cons z t =>
      rw [minList_cons x (z :: t) (by simp)]
      rcases List.mem_cons.mp hy with h | h
      · subst h; exact min_le_left _ _
      · exact le_trans (min_le_right _ _) (ih y h)

theorem mergeMany_candidate_jdstarthist (alerts : List Alert) :
    (mergeMany alerts).candidate.jdstarthist =
      minList (alerts.map (fun x => x.candidate.jdstarthist)) := rfl

/-- Claim C5: for every object identifier occurring in the input, the
merged alert for its group has `candidate.jdstarthist` equal to the minimum
`jdstarthist` across all contributing alerts of that group, and that merged
alert is an element of `merge_alerts`' output. -/
theorem merge_jdstarthist_minimal (l : List Alert) (oid : String)
    (h : oid ∈ l.map (fun x => x.objectId)) :
    ∃ m, mergeGroup (l.filter (fun x => decide (x.objectId = oid))) = some m ∧
      m ∈ merge_alerts l ∧
      m.candidate.jdstarthist =
        minList ((l.filter (fun x => decide (x.objectId = oid))).map
          (fun x => x.candidate.jdstarthist)) := by
  have hmem : ∃ x, x ∈ l ∧ x.objectId = oid := by simpa using h
  obtain ⟨x, hx, hxid⟩ := hmem
  have hxf : x ∈ l.filter (fun x => decide (x.objectId = oid)) :=
    List.mem_filter.mpr ⟨hx, by simp [hxid]⟩
  have hkey : oid ∈ (l.map (fun x => x.objectId)).dedup := List.mem_dedup.mpr h
  rcases hg : l.filter (fun x => decide (x.objectId = oid)) with _ | ⟨a, _ | ⟨b, rest⟩⟩
  · rw [hg] at hxf; cases hxf
  · refine ⟨a, by rw [hg]; rfl, ?_, by rw [hg]; rfl⟩
    exact List.mem_filterMap.mpr ⟨oid, hkey, by rw [hg]; rfl⟩
  · refine ⟨mergeMany (a :: b :: rest), by rw [hg]; rfl, ?_, ?_⟩
    · exact List.mem_filterMap.mpr ⟨oid, hkey, by rw [hg]; rfl⟩
    · rw [hg, mergeMany_candidate_jdstarthist]

/-- Witness for claim C5 at a concrete two-alert input. -/
theorem merge_jdstarthist_minimal_witness :
    ("ZTF1" ∈ ([alertC1A, alertC1B].map (fun x => x.objectId))) ∧
    (∃ m, mergeGroup ([alertC1A, alertC1B].filter
        (fun x => decide (x.objectId = "ZTF1"))) = some m ∧
      m ∈ merge_alerts [alertC1A, alertC1B] ∧
      m.candidate.jdstarthist =
        minList (([alertC1A, alertC1B].filter
          (fun x => decide (x.objectId = "ZTF1"))).map
          (fun x => x.candidate.jdstarthist))) :=
  ⟨by decide, merge_jdstarthist_minimal [alertC1A, alertC1B] "ZTF1" (by decide)⟩

theorem foldl_dedupStep_toFinset (xs : List Detection) :
    ∀ acc : List Detection,
      (xs.foldl dedupStep acc).toFinset = acc.toFinset ∪ xs.toFinset := by
  induction xs with
  | nil => intro acc; simp
  | cons x xs ih =>
    intro acc
    rw [List.foldl_cons, ih (dedupStep acc x)]
    by_cases hx : x ∈ acc
    · rw [dedupStep, if_pos hx]
      ext d
      simp only [Finset.mem_union, List.mem_toFinset, List.mem_cons]
      constructor
      · rintro (hd | hd)
        · exact Or.inl hd
        · exact Or.inr (Or.inr hd)
      · rintro (hd | hd | hd)
        · exact Or.inl hd
        · subst hd; exact Or.inl hx
        · exact Or.inr hd
    · rw [dedupStep, if_neg hx]
      ext d
      simp only [Finset.mem_union, List.mem_toFinset, List.mem_cons]
      tauto

theorem mergeIntoPrv_toFinset (prv : List Detection) (x : Alert) :
    (mergeIntoPrv prv x).toFinset =
      prv.toFinset ∪ (x.prv_candidates ++ [x.candidate]).toFinset := by
  rw [mergeIntoPrv, foldl_dedupStep_toFinset]

/-- Claim C6: for every merged alert produced by `merge_alerts`, folding its
own detection history (its `prv_candidates` plus its candidate) into itself
with the merge-dedup step leaves the detection set unchanged: the
deduplicated detection set is a fixed point of the merge operation. -/
theorem merge_idempotent_on_output (l : List Alert) (m : Alert)
    (hm : m ∈ merge_alerts l) : detSet (selfMerge m) = detSet m := by
  clear hm
  rw [detSet, detSet, selfMerge]
  show (m.candidate :: mergeIntoPrv m.prv_candidates m).toFinset = _
  rw [List.toFinset_cons, List.toFinset_cons, mergeIntoPrv_toFinset]
  ext d
  simp only [Finset.mem_insert, Finset.mem_union, List.mem_toFinset,
    List.toFinset_append, List.mem_append, List.toFinset_cons, List.mem_cons,
    List.not_mem_nil, or_false]
  tauto

/-- Witness for claim C6 at a concrete single-alert input. -/
theorem merge_idempotent_on_output_witness :
    (alertC1A ∈ merge_alerts [alertC1A]) ∧
    detSet (selfMerge alertC1A) = detSet alertC1A :=
  ⟨by decide, merge_idempotent_on_output [alertC1A] alertC1A (by decide)⟩

theorem lookupKey_append (m₁ m₂ : List (String × α)) (key : String) :
    lookupKey (m₁ ++ m₂) key =
      (match lookupKey m₁ key with
       | some v => some v
       | none => lookupKey m₂ key) := by
  induction m₁ with
  | nil => rfl
  | cons p rest ih =>
    rw [List.cons_append, lookupKey, lookupKey]
    by_cases hp : p.1 = key
    · simp [hp]
    · simp [hp, ih]

theorem lookupKey_filter_self (m : List (String × α)) (k : String) :
    lookupKey (m.filter (fun p => decide (p.1 ≠ k))) k = none := by
  induction m with
  | nil => rfl
  | cons p rest ih =>
    rw [List.filter_cons]
    by_cases hp : p.1 = k
    · simp only [hp, ne_eq, not_true_eq_false]
      simpa using ih
    · simp only [ne_eq, hp, not_false_eq_true]
      simpa [lookupKey, hp] using ih

theorem lookupKey_filter_other (m : List (String × α)) (k key : String)
    (h : k ≠ key) :
    lookupKey (m.filter (fun p => decide (p.1 ≠ k))) key = lookupKey m key := by
  induction m with
  | nil => rfl
  | cons p rest ih =>
    rw [List.filter_cons]
    by_cases hp : p.1 = k
    · have hpk : p.1 ≠ key := by rw [hp]; exact h
      simp only [hp, ne_eq, not_true_eq_false]
      simp only [lookupKey, hpk, if_false]
      simpa using ih
    · simp only [ne_eq, hp, not_false_eq_true]
      simp only [lookupKey]
      by_cases hpk : p.1 = key
      · simp [hpk]
      · simp only [hpk, if_false]
        simpa using ih

theorem lookupKey_updateKey_self (m : List (String × α)) (k : String) (v : α) :
    lookupKey (updateKey m k v) k = some v := by
  rw [updateKey, lookupKey_append, lookupKey_filter_self]
  simp [lookupKey]

theorem lookupKey_updateKey_ne (m : List (String × α)) (k key : String) (v : α)
    (h : k ≠ key) : lookupKey (updateKey m k v) key = lookupKey m key := by
  rw [updateKey, lookupKey_append, lookupKey_filter_other m k key h]
  have hv : lookupKey [(k, v)] key = none := by simp [lookupKey, h]
  rw [hv]
  cases lookupKey m key <;> rfl

theorem lookupKey_updateKey_isSome (m : List (String × α)) (k key : String) (v : α)
    (h : (lookupKey m key).isSome = true) :
    (lookupKey (updateKey m k v) key).isSome = true := by
  by_cases hk : k = key
  · subst hk; rw [lookupKey_updateKey_self]; rfl
  · rw [lookupKey_updateKey_ne m k key v hk]; exact h

theorem foldl_updateKey_values_none {β : Type} (ks : List β) (keyf : β → String)
    (valf : β → Option ℚ) (hval : ∀ b, valf b = none) :
    ∀ acc : List (String × Option ℚ),
      (∀ key v, lookupKey acc key = some v → v = none) →
      ∀ key v,
        lookupKey (ks.foldl (fun a b => updateKey a (keyf b) (valf b)) acc) key =
          some v → v = none := by
  induction ks with
  | nil => intro acc hacc key v hv; exact hacc key v hv
  | cons b bs ih =>
    intro acc hacc key v hv
    rw [List.foldl_cons] at hv
    refine ih (updateKey acc (keyf b) (valf b)) ?_ key v hv
    intro key2 v2 hv2
    by_cases hk : keyf b = key2
    · subst hk
      rw [lookupKey_updateKey_self] at hv2
      injection hv2 with h2
      rw [← h2]
      exact hval b
    · rw [lookupKey_updateKey_ne _ _ _ _ hk] at hv2
      exact hacc key2 v2 hv2

theorem foldl_updateKey_isSome {β : Type} (ks : List β) (keyf : β → String)
    (valf : β → Option ℚ) (key : String) :
    ∀ acc : List (String × Option ℚ),
      ((lookupKey acc key).isSome = true ∨ ∃ b ∈ ks, keyf b = key) →
      (lookupKey (ks.foldl (fun a b => updateKey a (keyf b) (valf b)) acc)
        key).isSome = true := by
  induction ks with
  | nil =>
    intro acc h
    rcases h with h | ⟨b, hb, _⟩
    · exact h
    · cases hb
  | cons b bs ih =>
    intro acc h
    rw [List.foldl_cons]
    rcases h with h | ⟨b2, hb2, hk⟩
    · exact ih _ (Or.inl (lookupKey_updateKey_isSome _ _ _ _ h))
    · rcases List.mem_cons.mp hb2 with he | he
      · subst he
        subst hk
        refine ih _ (Or.inl ?_)
        rw [lookupKey_updateKey_self]
        rfl
      · exact ih _ (Or.inr ⟨b2, he, hk⟩)

theorem detectionsOf_eq_nil (t : Alert)
    (h : ∀ a ∈ t.prv_candidates ++ [t.candidate], a.magpsf = none) :
    detectionsOf t = [] := by
  rw [detectionsOf]
  apply List.filter_eq_nil_iff.mpr
  intro a ha
  simp [hasMag, h a ha]

/-- Claim C4: for a merged alert whose detection history carries no
brightness magnitude at all, the extracted record holds the null value
(`some none`: present, with value `None`) for every requested mean field
and for each of the three `peak_mjd` fields; the extraction is total, so no
exception is possible. -/
theorem extract_null_on_no_detections (keyList : List String) (t : Alert)
    (h : ∀ a ∈ t.prv_candidates ++ [t.candidate], a.magpsf = none) :
    (∀ k ∈ keyList, lookupKey (extractRecord keyList t) k = some none) ∧
    (∀ f ∈ [1, 2, 3], lookupKey (extractRecord keyList t) (peakKey f) = some none) := by
  have hd := detectionsOf_eq_nil t h
  have hmean : ∀ k, meanValue t k = none := by
    intro k; simp [meanValue, hd]
  have hpeak : ∀ f, peakValue t f = none := by
    intro f; simp [peakValue, bandOf, hd]
  have hempty : ∀ key v, lookupKey ([] : List (String × Option ℚ)) key = some v →
      v = none := by
    intro key v hv
    simp [lookupKey] at hv
  have hvalsInner := foldl_updateKey_values_none keyList (fun k => k)
    (fun k => meanValue t k) hmean [] hempty
  have hvalsOuter := foldl_updateKey_values_none [1, 2, 3] peakKey
    (fun f => peakValue t f) hpeak _ hvalsInner
  constructor
  · intro k hk
    have hsome : (lookupKey (extractRecord keyList t) k).isSome = true := by
      rw [extractRecord]
      refine foldl_updateKey_isSome [1, 2, 3] peakKey (fun f => peakValue t f) k _
        (Or.inl ?_)
      exact foldl_updateKey_isSome keyList (fun k => k) (fun k => meanValue t k) k []
        (Or.inr ⟨k, hk, rfl⟩)
    obtain ⟨v, hv⟩ := Option.isSome_iff_exists.mp hsome
    have hveq : v = none := by
      apply hvalsOuter k v
      rw [extractRecord] at hv
      exact hv
    rw [hv, hveq]
  · intro f hf
    have hsome : (lookupKey (extractRecord keyList t) (peakKey f)).isSome = true := by
      rw [extractRecord]
      exact foldl_updateKey_isSome [1, 2, 3] peakKey (fun f => peakValue t f)
        (peakKey f) _ (Or.inr ⟨f, hf, rfl⟩)
    obtain ⟨v, hv⟩ := Option.isSome_iff_exists.mp hsome
    have hveq : v = none := by
      apply hvalsOuter (peakKey f) v
      rw [extractRecord] at hv
      exact hv
    rw [hv, hveq]

/-- Witness for claim C4 at a concrete upper-limit-only input. -/
theorem extract_null_on_no_detections_witness :
    (∀ a ∈ alertC4.prv_candidates ++ [alertC4.candidate], a.magpsf = none) ∧
    ((∀ k ∈ ["ra", "dec", "distnr"],
        lookupKey (extractRecord ["ra", "dec", "distnr"] alertC4) k = some none) ∧
      (∀ f ∈ [1, 2, 3],
        lookupKey (extractRecord ["ra", "dec", "distnr"] alertC4) (peakKey f) =
          some none)) :=
  ⟨by decide, extract_null_on_no_detections ["ra", "dec", "distnr"] alertC4 (by decide)⟩

theorem firstMinBy_argmin (g f : α → ℚ) :
    ∀ l : List α, l ≠ [] →
      ∃ d, firstMinBy f l = some d ∧ d ∈ l ∧ f d = minList (l.map f) ∧
        (l.map g).getD (argminQ (l.map f)) 0 = g d := by
  intro l
  induction l with
  | nil => intro h; exact absurd rfl h
  | cons x xs ih =>
    intro _
    cases xs with
    | nil =>
      refine ⟨x, rfl, List.mem_singleton.mpr rfl, rfl, ?_⟩
      simp [argminQ, minList, List.findIdx, List.findIdx.go]
    | cons y t =>
      obtain ⟨z, hz, hzmem, hzval, hzgetD⟩ := ih (by simp)
      have hmapne : (y :: t).map f ≠ [] := by simp
      have hminc : minList ((x :: y :: t).map f) =
          min (f x) (minList ((y :: t).map f)) := by
        rw [List.map_cons]
        exact minList_cons _ _ hmapne
      by_cases hle : f x ≤ minList ((y :: t).map f)
      · have hmin : minList ((x :: y :: t).map f) = f x := by
          rw [hminc]; exact min_eq_left hle
        refine ⟨x, ?_, List.mem_cons_self _ _, hmin.symm, ?_⟩
        · rw [firstMinBy, hz]
          have : f x ≤ f z := by rw [hzval]; exact hle
          simp [this]
        · rw [argminQ, hmin]
          rw [show List.map f (x :: y :: t) = f x :: List.map f (y :: t) from rfl]
          rw [show List.map g (x :: y :: t) = g x :: List.map g (y :: t) from rfl]
          rw [List.findIdx_cons]
          simp
      · have hlt : minList ((y :: t).map f) < f x := lt_of_not_le hle
        have hmin : minList ((x :: y :: t).map f) = minList ((y :: t).map f) := by
          rw [hminc]; exact min_eq_right (le_of_lt hlt)
        refine ⟨z, ?_, List.mem_cons_of_mem _ hzmem, ?_, ?_⟩
        · rw [firstMinBy, hz]
          have : ¬ f x ≤ f z := by rw [hzval]; exact hle
          simp [this]
        · rw [hzval, hmin]
        · rw [argminQ, hmin]
          rw [show List.map f (x :: y :: t) = f x :: List.map f (y :: t) from rfl]
          rw [show List.map g (x :: y :: t) = g x :: List.map g (y :: t) from rfl]
          rw [List.findIdx_cons]
          have hne : f x ≠ minList (List.map f (y :: t)) := (ne_of_lt hlt).symm
          rw [decide_eq_false hne]
          exact hzgetD

theorem lookup_extract_peak (keyList : List String) (t : Alert) (f : ℕ)
    (hf : f ∈ [1, 2, 3]) :
    lookupKey (extractRecord keyList t) (peakKey f) = some (peakValue t f) := by
  have h21 : peakKey 2 ≠ peakKey 1 := by decide
  have h31 : peakKey 3 ≠ peakKey 1 := by decide
  have h32 : peakKey 3 ≠ peakKey 2 := by decide
  have hf3 : f = 1 ∨ f = 2 ∨ f = 3 := by simpa using hf
  rcases hf3 with hf1 | hf2 | hf3
  · subst hf1
    rw [extractRecord]
    simp only [List.foldl_cons, List.foldl_nil]
    rw [lookupKey_updateKey_ne _ _ _ _ h31, lookupKey_updateKey_ne _ _ _ _ h21,
      lookupKey_updateKey_self]
  · subst hf2
    rw [extractRecord]
    simp only [List.foldl_cons, List.foldl_nil]
    rw [lookupKey_updateKey_ne _ _ _ _ h32, lookupKey_updateKey_self]
  · subst hf3
    rw [extractRecord]
    simp only [List.foldl_cons, List.foldl_nil]
    rw [lookupKey_updateKey_self]

theorem peakValue_of_ne_nil (t : Alert) (f : ℕ) (h : bandOf t f ≠ []) :
    peakValue t f =
      some (((bandOf t f).map (fun d => d.jd)).getD
        (argminQ ((bandOf t f).map magOf)) 0 - 2400000.5) := by
  have hie : ((bandOf t f).map magOf).isEmpty = false := by
    obtain ⟨x0, xs0, hxx⟩ := List.exists_cons_of_ne_nil h
    rw [hxx]
    rfl
  rw [peakValue]
  simp only [hie, Bool.false_eq_true, if_false]

/-- Claim C3: for every merged alert and every band with at least one true
detection, the extracted `peak_mjd_<band>` equals the timestamp of the
band's minimum-magnitude detection minus 2400000.5, where ties on the
minimum are broken by the first occurrence in iteration order
(`firstMinBy`, written after the spec's words). -/
theorem peak_mjd_is_first_minimum (keyList : List String) (t : Alert) (f : ℕ)
    (hf : f ∈ [1, 2, 3]) (hne : bandOf t f ≠ []) :
    ∃ d, firstMinBy magOf (bandOf t f) = some d ∧ d ∈ bandOf t f ∧
      (∀ e ∈ bandOf t f, magOf d ≤ magOf e) ∧
      lookupKey (extractRecord keyList t) (peakKey f) =
        some (some (d.jd - 2400000.5)) := by
  obtain ⟨d, hd, hdmem, hdval, hdgetD⟩ :=
    firstMinBy_argmin (fun d => d.jd) magOf (bandOf t f) hne
  refine ⟨d, hd, hdmem, ?_, ?_⟩
  · intro e he
    rw [hdval]
    exact minList_le _ _ (List.mem_map_of_mem magOf he)
  · rw [lookup_extract_peak keyList t f hf, peakValue_of_ne_nil t f hne, hdgetD]

/-- Witness for claim C3 at the spec's example: band-g magnitudes
[18.2, 17.9, 19.0]; the peak is the second detection's timestamp. -/
theorem peak_mjd_is_first_minimum_witness :
    ((1 : ℕ) ∈ [1, 2, 3]) ∧ bandOf alertC3 1 ≠ [] ∧
    (∃ d, firstMinBy magOf (bandOf alertC3 1) = some d ∧ d ∈ bandOf alertC3 1 ∧
      (∀ e ∈ bandOf alertC3 1, magOf d ≤ magOf e) ∧
      lookupKey (extractRecord ["ra", "dec", "distnr"] alertC3) (peakKey 1) =
        some (some (d.jd - 2400000.5))) :=
  ⟨by decide, by decide,
   peak_mjd_is_first_minimum ["ra", "dec", "distnr"] alertC3 1 (by decide) (by decide)⟩

theorem backoff_always_locked (f : ℕ → Except HttpErr (List Alert)) (e : HttpErr)
    (hf : ∀ n, f n = Except.error e) (he : e.status = 423) :
    ∀ r a, (backoffExpoRetry f a r).1 = Except.error e ∧
      (backoffExpoRetry f a r).2 ≤ a + r + 1 := by
  intro r
  induction r using Nat.strong_induction_on with
  | _ r ih =>
    intro a
    have hg : giveupStatus e = false := by
      simp [giveupStatus, he]
    unfold backoffExpoRetry
    rw [hf a]
    dsimp only
    rw [if_neg (show ¬giveupStatus e = true by simp [hg])]
    by_cases hr : r = 0
    · subst hr
      simp
    · rw [if_neg hr]
      have h2 : 1 ≤ 2 ^ a := Nat.one_le_two_pow
      have hlt : r - min (2 ^ a) r < r := by omega
      obtain ⟨h1, hb⟩ := ih _ hlt (a + 1)
      exact ⟨h1, by omega⟩

/-- Claim C7: the retry wrapper of `access_stream` propagates any failure
whose status is not 423 immediately after the first attempt, while a
persistent 423 failure is retried with doubling waits until the 3600 s
budget is exhausted, after which the error is raised with a bounded number
of attempts (no unbounded looping). -/
theorem access_stream_retry_policy :
    (∀ f e, e.status ≠ 423 → f 0 = Except.error e →
      access_stream f = (Except.error e, 1)) ∧
    (∀ f e, (∀ n, f n = Except.error e) → e.status = 423 →
      (access_stream f).1 = Except.error e ∧ (access_stream f).2 ≤ 3601) := by
  constructor
  · intro f e he hf
    rw [access_stream]
    unfold backoffExpoRetry
    rw [hf]
    dsimp only
    rw [if_pos (show giveupStatus e = true by simp [giveupStatus, he])]
  · intro f e hf he
    have h := backoff_always_locked f e hf he 3600 0
    exact ⟨h.1, by simpa using h.2⟩

/-- Witness for claim C7: a 500 failure propagates after one attempt; a
persistent 423 failure ends in the raised error. -/
theorem access_stream_retry_policy_witness :
    ((⟨500⟩ : HttpErr).status ≠ 423) ∧
    access_stream (fun _ => Except.error ⟨500⟩) = (Except.error ⟨500⟩, 1) ∧
    ((⟨423⟩ : HttpErr).status = 423) ∧
    (access_stream (fun _ => Except.error ⟨423⟩)).1 = Except.error ⟨423⟩ :=
  ⟨by decide, access_stream_retry_policy.1 _ _ (by decide) rfl, rfl,
   (access_stream_retry_policy.2 _ _ (fun n => rfl) rfl).1⟩

/-- Claim C9: `get_info_from_alerts` leaves every transient of the merged
list with its candidate appended in place to `prv_candidates`; on such a
mutated transient a further extraction sees the candidate one more time, so
its detection count rises by one (to at least two) and every mean-feature
sample list gains the candidate's value again. -/
theorem get_info_appends_candidate_in_place (l : List Alert) (kl : List String)
    (t : Alert) (h : hasMag t.candidate = true) :
    (get_info_from_alerts l kl).2 =
      l.map (fun a => { a with prv_candidates := a.prv_candidates ++ [a.candidate] }) ∧
    detectionsOf (touchAlert t) = detectionsOf t ++ [t.candidate] ∧
    (detectionsOf (touchAlert t)).count t.candidate =
      (detectionsOf t).count t.candidate + 1 ∧
    1 ≤ (detectionsOf t).count t.candidate ∧
    (∀ k, (detectionsOf (touchAlert t)).filterMap (fun d => getKey d k) =
      (detectionsOf t).filterMap (fun d => getKey d k) ++
        (getKey t.candidate k).toList) := by
  have happ : detectionsOf (touchAlert t) = detectionsOf t ++ [t.candidate] := by
    rw [detectionsOf, detectionsOf, touchAlert]
    dsimp only
    rw [List.filter_append, List.filter_append]
    rw [show List.filter hasMag [t.candidate] = [t.candidate] from by simp [h]]
  have hmem : t.candidate ∈ detectionsOf t := by
    rw [detectionsOf]
    refine List.mem_filter.mpr ⟨?_, h⟩
    simp
  refine ⟨rfl, happ, ?_, ?_, ?_⟩
  · rw [happ, List.count_append]
    simp
  · rw [Nat.one_le_iff_ne_zero]
    intro hc
    rw [← List.count_pos_iff] at hmem
    omega
  · intro k
    rw [happ, List.filterMap_append]
    congr 1

/-- Witness for claim C9 at a concrete one-alert merged list. -/
theorem get_info_appends_candidate_in_place_witness :
    (hasMag alertC9.candidate = true) ∧
    ((get_info_from_alerts [alertC9] ["ra"]).2 =
      [alertC9].map (fun a => { a with prv_candidates := a.prv_candidates ++ [a.candidate] }) ∧
    detectionsOf (touchAlert alertC9) = detectionsOf alertC9 ++ [alertC9.candidate] ∧
    (detectionsOf (touchAlert alertC9)).count alertC9.candidate =
      (detectionsOf alertC9).count alertC9.candidate + 1 ∧
    1 ≤ (detectionsOf alertC9).count alertC9.candidate ∧
    (∀ k, (detectionsOf (touchAlert alertC9)).filterMap (fun d => getKey d k) =
      (detectionsOf alertC9).filterMap (fun d => getKey d k) ++
        (getKey alertC9.candidate k).toList)) :=
  ⟨by decide, get_info_appends_candidate_in_place [alertC9] ["ra"] alertC9 (by decide)⟩
